import Mathlib

/-!
Lean model of the simple untyped lambda-calculus interpreter
(lexer, parser, substitution-based evaluator) from the Rust sources
src/term.rs, src/token.rs, src/lexer.rs, src/parser.rs, src/interpreter.rs.

Recursion that is unbounded in the source (evaluation, tokenization,
recursive-descent parsing) is modelled with an explicit fuel parameter;
a result of none means the fuel ran out, and a source-level result is
any value obtained at some sufficient fuel.
-/

namespace Simple

/-- AST from src/term.rs: Variable, Abstraction and Application nodes. -/
inductive Term where
  | var (name : String)
  | abs (param : String) (body : Term)
  | app (lhs : Term) (rhs : Term)
deriving DecidableEq

/-- Interpreter::substitute from src/interpreter.rs: replace occurrences of
a variable with a given term, stopping at an abstraction whose parameter
shadows the substituted variable. -/
def substitute : Term → String → Term → Term
  | Term.var name, v, value => if name = v then value else Term.var name
  | Term.abs param body, v, value =>
      if param ≠ v then Term.abs param (substitute body v value)
      else Term.abs param body
  | Term.app lhs rhs, v, value =>
      Term.app (substitute lhs v value) (substitute rhs v value)

/-- Interpreter::evaluate_term from src/interpreter.rs, with fuel.
An application evaluates both sides; if the evaluated left side is an
abstraction the substituted body is evaluated again, otherwise the
application of the two evaluated sides is returned. Variables and
abstractions are returned as they are. -/
def evaluateTerm : Nat → Term → Option Term
  | 0, _ => none
  | n + 1, Term.app lhs rhs =>
      match evaluateTerm n lhs, evaluateTerm n rhs with
      | some lv, some rv =>
          match lv with
          | Term.abs param body => evaluateTerm n (substitute body param rv)
          | _ => some (Term.app lv rv)
      | _, _ => none
  | _ + 1, Term.var name => some (Term.var name)
  | _ + 1, Term.abs param body => some (Term.abs param body)

/-- A term contains a beta-redex somewhere (an application whose left side
is an abstraction). -/
def hasRedex : Term → Bool
  | Term.var _ => false
  | Term.abs _ body => hasRedex body
  | Term.app (Term.abs _ _) _ => true
  | Term.app lhs rhs => hasRedex lhs || hasRedex rhs

theorem evaluateTerm_mono :
    ∀ (n : Nat) {m : Nat} {t r : Term}, n ≤ m →
      evaluateTerm n t = some r → evaluateTerm m t = some r := by
  intro n
  induction n with
  | zero => intro m t r _ h; simp [evaluateTerm] at h
  | succ n ih =>
    intro m t r hnm h
    obtain ⟨m', rfl⟩ : ∃ m', m = m' + 1 := ⟨m - 1, by omega⟩
    have hnm' : n ≤ m' := by omega
    cases t with
    | var name => simpa [evaluateTerm] using h
    | abs param body => simpa [evaluateTerm] using h
    | app lhs rhs =>
      simp only [evaluateTerm] at h ⊢
      cases hl : evaluateTerm n lhs with
      | none => rw [hl] at h; simp at h
      | some lv =>
        cases hr : evaluateTerm n rhs with
        | none => rw [hl, hr] at h; simp at h
        | some rv =>
          rw [hl, hr] at h
          rw [ih hnm' hl, ih hnm' hr]
          cases lv with
          | var name => exact h
          | app a b => exact h
          | abs param body => exact ih hnm' h

theorem evaluateTerm_fixpoint :
    ∀ (n : Nat) {t r : Term},
      evaluateTerm n t = some r → evaluateTerm n r = some r := by
  intro n
  induction n with
  | zero => intro t r h; simp [evaluateTerm] at h
  | succ n ih =>
    intro t r h
    cases t with
    | var name =>
      simp only [evaluateTerm, Option.some.injEq] at h
      rw [← h]; simp [evaluateTerm]
    | abs param body =>
      simp only [evaluateTerm, Option.some.injEq] at h
      rw [← h]; simp [evaluateTerm]
    | app lhs rhs =>
      simp only [evaluateTerm] at h
      cases hl : evaluateTerm n lhs with
      | none => rw [hl] at h; simp at h
      | some lv =>
        cases hr : evaluateTerm n rhs with
        | none => rw [hl, hr] at h; simp at h
        | some rv =>
          rw [hl, hr] at h
          cases lv with
          | abs param body => exact evaluateTerm_mono n (by omega) (ih h)
          | var name =>
            simp only [Option.some.injEq] at h
            rw [← h]
            simp only [evaluateTerm, ih hl, ih hr]
          | app a b =>
            simp only [Option.some.injEq] at h
            rw [← h]
            simp only [evaluateTerm, ih hl, ih hr]

/-- C1: evaluating an Application first evaluates both sub-terms; when the
evaluated left side is an abstraction, the evaluated right side is
substituted for the parameter in its body and the result is evaluated
again; otherwise the result is the application of the two evaluated
sub-terms. Evaluating (lam x. x) y yields y, and evaluating
((lam x. lam y. x) a) b yields a. -/
theorem c1_evaluate_application :
    (∀ (n : Nat) (lhs rhs : Term) (p : String) (b v : Term),
      evaluateTerm n lhs = some (Term.abs p b) →
      evaluateTerm n rhs = some v →
      evaluateTerm (n + 1) (Term.app lhs rhs) =
        evaluateTerm n (substitute b p v)) ∧
    (∀ (n : Nat) (lhs rhs lv v : Term),
      evaluateTerm n lhs = some lv →
      evaluateTerm n rhs = some v →
      (∀ (p : String) (b : Term), lv ≠ Term.abs p b) →
      evaluateTerm (n + 1) (Term.app lhs rhs) = some (Term.app lv v)) ∧
    evaluateTerm 2
      (Term.app (Term.abs "x" (Term.var "x")) (Term.var "y")) =
      some (Term.var "y") ∧
    evaluateTerm 4
      (Term.app
        (Term.app (Term.abs "x" (Term.abs "y" (Term.var "x"))) (Term.var "a"))
        (Term.var "b")) =
      some (Term.var "a") := by
  refine ⟨?_, ?_, by decide, by decide⟩
  · intro n lhs rhs p b v hl hr
    simp [evaluateTerm, hl, hr]
  · intro n lhs rhs lv v hl hr hne
    cases lv with
    | var name => simp [evaluateTerm, hl, hr]
    | app a b => simp [evaluateTerm, hl, hr]
    | abs param body => exact absurd rfl (hne param body)

theorem c1_witness :
    evaluateTerm 2 (Term.app (Term.abs "x" (Term.var "x")) (Term.var "y")) =
      evaluateTerm 1 (substitute (Term.var "x") "x" (Term.var "y")) :=
  c1_evaluate_application.1 1 (Term.abs "x" (Term.var "x")) (Term.var "y")
    "x" (Term.var "x") (Term.var "y") rfl rfl

/-- C2: substitute replaces every variable with the substituted name by the
value, leaves other variables alone, stops at an abstraction whose
parameter equals the substituted name, recurses into the body of any other
abstraction keeping its parameter, and recurses into both sides of an
application; with the two concrete shadowing examples. -/
theorem c2_substitute :
    (∀ (v : String) (value : Term) (name : String), name = v →
      substitute (Term.var name) v value = value) ∧
    (∀ (v : String) (value : Term) (name : String), name ≠ v →
      substitute (Term.var name) v value = Term.var name) ∧
    (∀ (v : String) (value : Term) (p : String) (body : Term), p = v →
      substitute (Term.abs p body) v value = Term.abs p body) ∧
    (∀ (v : String) (value : Term) (p : String) (body : Term), p ≠ v →
      substitute (Term.abs p body) v value =
        Term.abs p (substitute body v value)) ∧
    (∀ (v : String) (value : Term) (lhs rhs : Term),
      substitute (Term.app lhs rhs) v value =
        Term.app (substitute lhs v value) (substitute rhs v value)) ∧
    substitute (Term.abs "x" (Term.var "y")) "y" (Term.var "z") =
      Term.abs "x" (Term.var "z") ∧
    substitute (Term.abs "x" (Term.var "x")) "x" (Term.var "z") =
      Term.abs "x" (Term.var "x") := by
  refine ⟨?_, ?_, ?_, ?_, ?_, by decide, by decide⟩
  · intro v value name h; simp [substitute, h]
  · intro v value name h; simp [substitute, h]
  · intro v value p body h; simp [substitute, h]
  · intro v value p body h; simp [substitute, h]
  · intro v value lhs rhs; simp [substitute]

theorem c2_witness :
    substitute (Term.abs "x" (Term.var "y")) "y" (Term.var "z") =
      Term.abs "x" (substitute (Term.var "y") "y" (Term.var "z")) :=
  c2_substitute.2.2.2.1 "y" (Term.var "z") "x" (Term.var "y") (by decide)

/-- C3: substitution is not capture-avoiding: for distinct names x and y,
substituting y for x under a binder named y captures the substituted
variable, yielding the abstraction of y over y. -/
theorem c3_substitution_captures :
    ∀ (x y : String), x ≠ y →
      substitute (Term.abs y (Term.var x)) x (Term.var y) =
        Term.abs y (Term.var y) := by
  intro x y h
  simp [substitute, Ne.symm h]

theorem c3_witness :
    substitute (Term.abs "y" (Term.var "x")) "x" (Term.var "y") =
      Term.abs "y" (Term.var "y") :=
  c3_substitution_captures "x" "y" (by decide)

/-- C4: evaluation is idempotent: whenever evaluation of a term terminates
(at some fuel) with result r, evaluating r again yields r. -/
theorem c4_evaluate_idempotent :
    ∀ (n : Nat) (t r : Term),
      evaluateTerm n t = some r → evaluateTerm n r = some r := by
  intro n t r h
  exact evaluateTerm_fixpoint n h

theorem c4_witness :
    evaluateTerm 2 (Term.var "y") = some (Term.var "y") :=
  c4_evaluate_idempotent 2
    (Term.app (Term.abs "x" (Term.var "x")) (Term.var "y"))
    (Term.var "y") (by decide)

/-- Token from src/token.rs. -/
inductive Token where
  | lparen
  | rparen
  | lambda
  | dot
  | binding (name : String)
deriving DecidableEq

/-- The lexical error signalled by the lexer on an unrecognized character
(src/lexer.rs aborts with an Unexpected character message carrying the
peeked character; it is modelled as an error value). -/
inductive LexError where
  | unexpectedCharacter (c : Char)
deriving DecidableEq

/-- The character the lexer of src/lexer.rs matches, besides a backslash,
to produce a Lambda token. Its source bytes are e4 bd 8d, the UTF-8
encoding of U+4F4D, which is not U+03BB, the character the Display
implementation of src/term.rs prints for an abstraction. -/
def lambdaGlyph : Char := '位'

/-- Rust char::is_whitespace: the Unicode White_Space code points. -/
def isRustWhitespace (c : Char) : Bool :=
  c = '\u0009' || c = '\u000a' || c = '\u000b' || c = '\u000c' ||
  c = '\u000d' || c = '\u0020' || c = '\u0085' || c = '\u00a0' ||
  c = '\u1680' || c = '\u2000' || c = '\u2001' || c = '\u2002' ||
  c = '\u2003' || c = '\u2004' || c = '\u2005' || c = '\u2006' ||
  c = '\u2007' || c = '\u2008' || c = '\u2009' || c = '\u200a' ||
  c = '\u2028' || c = '\u2029' || c = '\u202f' || c = '\u205f' ||
  c = '\u3000'

/-- Rust char::is_ascii_lowercase. -/
def isAsciiLowercase (c : Char) : Bool := 'a' ≤ c && c ≤ 'z'

/-- Rust char::is_ascii_alphanumeric. -/
def isAsciiAlphanumeric (c : Char) : Bool :=
  ('a' ≤ c && c ≤ 'z') || ('A' ≤ c && c ≤ 'Z') || ('0' ≤ c && c ≤ '9')

/-- Lexer::skip_whitespace from src/lexer.rs: drop leading whitespace. -/
def skipWhitespace : List Char → List Char
  | [] => []
  | c :: cs => if isRustWhitespace c then skipWhitespace cs else c :: cs

/-- Lexer::read_binding from src/lexer.rs: the greedily consumed run of
ASCII alphanumeric characters and the remaining input. -/
def readBinding : List Char → List Char × List Char
  | [] => ([], [])
  | c :: cs =>
      if isAsciiAlphanumeric c then
        let p := readBinding cs
        (c :: p.1, p.2)
      else ([], c :: cs)

/-- Lexer::next_token from src/lexer.rs: skip whitespace, then classify the
next character; ok none is end of input, and an unrecognized character is
the fatal lexical error. -/
def nextToken (cs : List Char) : Except LexError (Option (Token × List Char)) :=
  match skipWhitespace cs with
  | [] => Except.ok none
  | c :: rest =>
      if c = '(' then Except.ok (some (Token.lparen, rest))
      else if c = ')' then Except.ok (some (Token.rparen, rest))
      else if c = lambdaGlyph ∨ c = '\\' then Except.ok (some (Token.lambda, rest))
      else if c = '.' then Except.ok (some (Token.dot, rest))
      else if isAsciiLowercase c then
        let p := readBinding (c :: rest)
        Except.ok (some (Token.binding (String.mk p.1), p.2))
      else Except.error (LexError.unexpectedCharacter c)

/-- Driving the Lexer iterator to the end of input, with fuel: the list of
all produced tokens, or the lexical error at which the lexer halts. -/
def tokenize : Nat → List Char → Option (Except LexError (List Token))
  | 0, _ => none
  | n + 1, cs =>
      match nextToken cs with
      | Except.error e => some (Except.error e)
      | Except.ok none => some (Except.ok [])
      | Except.ok (some (t, rest)) =>
          match tokenize n rest with
          | none => none
          | some (Except.error e) => some (Except.error e)
          | some (Except.ok ts) => some (Except.ok (t :: ts))

/-- The Display implementation for Term from src/term.rs: a variable prints
its name, an abstraction prints the U+03BB glyph, its parameter, a dot and
a space, and its body, and an application prints its two sides separated
by a space, parenthesizing a side that is itself an abstraction or an
application. -/
def display : Term → String
  | Term.var name => name
  | Term.abs param body => "λ" ++ param ++ ". " ++ display body
  | Term.app (Term.var l) (Term.var r) => l ++ " " ++ r
  | Term.app (Term.var l) rhs => l ++ " " ++ ("(" ++ display rhs ++ ")")
  | Term.app lhs (Term.var r) => ("(" ++ display lhs ++ ")") ++ " " ++ r
  | Term.app lhs rhs =>
      ("(" ++ display lhs ++ ")") ++ " " ++ ("(" ++ display rhs ++ ")")

/-- C5: the printed rendering of the normal-form term lam x. x cannot be
re-lexed: Display prints the U+03BB lambda glyph, but the lexer only
recognizes U+4F4D or a backslash as Lambda and halts on U+03BB with its
unexpected-character error, so the print/parse round trip fails; the
lexer does accept the other glyph. -/
theorem c5_display_not_relexable :
    display (Term.abs "x" (Term.var "x")) = "λx. x" ∧
    hasRedex (Term.abs "x" (Term.var "x")) = false ∧
    (∀ n : Nat,
      tokenize (n + 1) (display (Term.abs "x" (Term.var "x"))).data =
        some (Except.error (LexError.unexpectedCharacter 'λ'))) ∧
    tokenize 10 ("位x. x").data =
      some (Except.ok
        [Token.lambda, Token.binding "x", Token.dot, Token.binding "x"]) := by
  refine ⟨rfl, rfl, ?_, rfl⟩
  intro n
  rfl

/-- C9: whenever the character reached after skipping whitespace is not a
parenthesis, a dot, the lambda glyph, a backslash, or an ASCII lowercase
letter, the lexer halts with the unexpected-character error carrying that
character instead of skipping it or producing a token. -/
theorem c9_unexpected_character :
    ∀ (cs rest : List Char) (c : Char) (n : Nat),
      skipWhitespace cs = c :: rest →
      c ≠ '(' → c ≠ ')' → c ≠ lambdaGlyph → c ≠ '\\' → c ≠ '.' →
      isAsciiLowercase c = false →
      tokenize (n + 1) cs =
        some (Except.error (LexError.unexpectedCharacter c)) := by
  intro cs rest c n hskip h1 h2 h3 h4 h5 h6
  simp [tokenize, nextToken, hskip, h1, h2, h3, h4, h5, h6]

theorem c9_witness :
    tokenize 1 ['A', 'b'] =
      some (Except.error (LexError.unexpectedCharacter 'A')) :=
  c9_unexpected_character ['A', 'b'] ['b'] 'A' 0 (by decide)
    (by decide) (by decide) (by decide) (by decide) (by decide) (by decide)

/-- ParseError from src/parser.rs. -/
inductive ParseError where
  | unexpectedEof
  | unexpectedToken (t : Token)
deriving DecidableEq

/-- The loop condition of Parser::parse_application: the lookahead can
start an atom when it is a Binding or an LParen. -/
def isAtomStart : Option Token → Bool
  | some (Token.binding _) => true
  | some Token.lparen => true
  | _ => false

mutual

/-- Parser::parse_atom from src/parser.rs: dispatch on the lookahead; a
Binding yields a Variable, an LParen a parenthesized term, a Lambda an
abstraction; any other token is unexpected and a missing token is the
end-of-input error. -/
def parseAtom : Nat → List Token → Option (Except ParseError (Term × List Token))
  | 0, _ => none
  | n + 1, toks =>
      match toks with
      | Token.binding name :: rest => some (Except.ok (Term.var name, rest))
      | Token.lparen :: _ => parseParenthesized n toks
      | Token.lambda :: _ => parseAbstraction n toks
      | tok :: _ => some (Except.error (ParseError.unexpectedToken tok))
      | [] => some (Except.error ParseError.unexpectedEof)

/-- Parser::parse_parenthesized from src/parser.rs: eat LParen, parse an
application-level term, eat RParen. -/
def parseParenthesized : Nat → List Token → Option (Except ParseError (Term × List Token))
  | 0, _ => none
  | n + 1, toks =>
      match toks with
      | Token.lparen :: rest =>
          match parseApplication n rest with
          | none => none
          | some (Except.error e) => some (Except.error e)
          | some (Except.ok (term, rest')) =>
              match rest' with
              | Token.rparen :: rest'' => some (Except.ok (term, rest''))
              | tok :: _ => some (Except.error (ParseError.unexpectedToken tok))
              | [] => some (Except.error ParseError.unexpectedEof)
      | tok :: _ => some (Except.error (ParseError.unexpectedToken tok))
      | [] => some (Except.error ParseError.unexpectedEof)

/-- Parser::parse_abstraction from src/parser.rs: eat Lambda, eat a
Binding naming the parameter, eat Dot, then parse the body as a full
application-level term. -/
def parseAbstraction : Nat → List Token → Option (Except ParseError (Term × List Token))
  | 0, _ => none
  | n + 1, toks =>
      match toks with
      | Token.lambda :: Token.binding param :: Token.dot :: rest =>
          match parseApplication n rest with
          | none => none
          | some (Except.error e) => some (Except.error e)
          | some (Except.ok (body, rest')) =>
              some (Except.ok (Term.abs param body, rest'))
      | Token.lambda :: Token.binding _ :: tok :: _ =>
          some (Except.error (ParseError.unexpectedToken tok))
      | Token.lambda :: Token.binding _ :: [] =>
          some (Except.error ParseError.unexpectedEof)
      | Token.lambda :: tok :: _ =>
          some (Except.error (ParseError.unexpectedToken tok))
      | Token.lambda :: [] => some (Except.error ParseError.unexpectedEof)
      | tok :: _ => some (Except.error (ParseError.unexpectedToken tok))
      | [] => some (Except.error ParseError.unexpectedEof)

/-- Parser::parse_application from src/parser.rs: parse one atom, then
keep parsing atoms while the lookahead can start one, left-folding the
results into Application nodes. -/
def parseApplication : Nat → List Token → Option (Except ParseError (Term × List Token))
  | 0, _ => none
  | n + 1, toks =>
      match parseAtom n toks with
      | none => none
      | some (Except.error e) => some (Except.error e)
      | some (Except.ok (term, rest)) => parseApplicationLoop n term rest

/-- The while loop inside Parser::parse_application. -/
def parseApplicationLoop : Nat → Term → List Token → Option (Except ParseError (Term × List Token))
  | 0, _, _ => none
  | n + 1, acc, toks =>
      if isAtomStart toks.head? then
        match parseAtom n toks with
        | none => none
        | some (Except.error e) => some (Except.error e)
        | some (Except.ok (rhs, rest)) =>
            parseApplicationLoop n (Term.app acc rhs) rest
      else some (Except.ok (acc, toks))

end

/-- Parser::parse from src/parser.rs: parse one application-level term,
then require the token stream to be exhausted; a leftover token is the
unexpected-token error. -/
def parse (n : Nat) (toks : List Token) : Option (Except ParseError Term) :=
  match parseApplication n toks with
  | none => none
  | some (Except.error e) => some (Except.error e)
  | some (Except.ok (term, rest)) =>
      match rest with
      | [] => some (Except.ok term)
      | tok :: _ => some (Except.error (ParseError.unexpectedToken tok))

theorem parseApplicationLoop_bindings :
    ∀ (xs : List String) (acc : Term) (n : Nat), xs.length ≤ n →
      parseApplicationLoop (n + 1) acc (xs.map Token.binding) =
        some (Except.ok
          (xs.foldl (fun a s => Term.app a (Term.var s)) acc, [])) := by
  intro xs
  induction xs with
  | nil => intro acc n _; rfl
  | cons x xs ih =>
    intro acc n h
    simp only [List.length_cons] at h
    obtain ⟨n', rfl⟩ : ∃ n', n = n' + 1 := ⟨n - 1, by omega⟩
    exact ih (Term.app acc (Term.var x)) n' (by omega)

/-- C6: an abstraction body extends as far right as possible: after Lambda,
a Binding and Dot, the parser parses the body with parse_application, so
parsing the rendering of lam x. x y yields the abstraction whose body is
the application of x to y, not an application whose left side is the
identity abstraction. -/
theorem c6_abstraction_body_greedy :
    (∀ (n : Nat) (p : String) (rest : List Token),
      parseAbstraction (n + 1)
          (Token.lambda :: Token.binding p :: Token.dot :: rest) =
        Option.map (Except.map (fun pr => (Term.abs p pr.1, pr.2)))
          (parseApplication n rest)) ∧
    tokenize 20 ("位x. x y").data =
      some (Except.ok [Token.lambda, Token.binding "x", Token.dot,
        Token.binding "x", Token.binding "y"]) ∧
    tokenize 20 ("\\x. x y").data =
      some (Except.ok [Token.lambda, Token.binding "x", Token.dot,
        Token.binding "x", Token.binding "y"]) ∧
    parse 20 [Token.lambda, Token.binding "x", Token.dot,
        Token.binding "x", Token.binding "y"] =
      some (Except.ok
        (Term.abs "x" (Term.app (Term.var "x") (Term.var "y")))) ∧
    Term.abs "x" (Term.app (Term.var "x") (Term.var "y")) ≠
      Term.app (Term.abs "x" (Term.var "x")) (Term.var "y") := by
  refine ⟨?_, rfl, rfl, rfl, by decide⟩
  intro n p rest
  cases h : parseApplication n rest with
  | none => simp [parseAbstraction, h]
  | some res =>
    cases res with
    | error e => simp [parseAbstraction, h, Except.map]
    | ok pr => cases pr with
      | mk body rest' => simp [parseAbstraction, h, Except.map]

/-- C7: application is left-associative: a chain of variable atoms is
left-folded into nested Application nodes, and parsing x y z yields the
application of (x applied to y) to z. -/
theorem c7_application_left_assoc :
    (∀ (x : String) (xs : List String) (n : Nat), xs.length ≤ n →
      parse (n + 2) (Token.binding x :: xs.map Token.binding) =
        some (Except.ok
          (xs.foldl (fun a s => Term.app a (Term.var s)) (Term.var x)))) ∧
    tokenize 10 ("x y z").data =
      some (Except.ok
        [Token.binding "x", Token.binding "y", Token.binding "z"]) ∧
    parse 10 [Token.binding "x", Token.binding "y", Token.binding "z"] =
      some (Except.ok
        (Term.app (Term.app (Term.var "x") (Term.var "y"))
          (Term.var "z"))) := by
  refine ⟨?_, rfl, rfl⟩
  intro x xs n h
  have hloop := parseApplicationLoop_bindings xs (Term.var x) n h
  simp [parse, parseApplication, parseAtom, hloop]

theorem c7_witness :
    parse 3 [Token.binding "a", Token.binding "b"] =
      some (Except.ok (Term.app (Term.var "a") (Term.var "b"))) :=
  c7_application_left_assoc.1 "a" ["b"] 1 (by decide)

/-- C8: parsing the rendering of lam x. (spelled with the designated
lambda glyph or a backslash) fails with the end-of-input error, not a
token error, and parsing x y ) fails with the unexpected-token error
carrying the RParen token; in both cases no term is produced. -/
theorem c8_parse_error_classification :
    tokenize 10 ("位x.").data =
      some (Except.ok [Token.lambda, Token.binding "x", Token.dot]) ∧
    tokenize 10 ("\\x.").data =
      some (Except.ok [Token.lambda, Token.binding "x", Token.dot]) ∧
    parse 10 [Token.lambda, Token.binding "x", Token.dot] =
      some (Except.error ParseError.unexpectedEof) ∧
    tokenize 10 ("x y )").data =
      some (Except.ok [Token.binding "x", Token.binding "y", Token.rparen]) ∧
    parse 10 [Token.binding "x", Token.binding "y", Token.rparen] =
      some (Except.error (ParseError.unexpectedToken Token.rparen)) :=
  ⟨rfl, rfl, rfl, rfl, rfl⟩

/-- C10: evaluation never reduces inside an abstraction body: every
abstraction evaluates to itself, even when its body contains a redex, so
some evaluation results are not redex-free. -/
theorem c10_no_reduction_under_abstraction :
    (∀ (n : Nat) (p : String) (b : Term),
      evaluateTerm (n + 1) (Term.abs p b) = some (Term.abs p b)) ∧
    evaluateTerm 1
        (Term.abs "x"
          (Term.app (Term.abs "y" (Term.var "y")) (Term.var "x"))) =
      some (Term.abs "x"
        (Term.app (Term.abs "y" (Term.var "y")) (Term.var "x"))) ∧
    hasRedex
        (Term.abs "x"
          (Term.app (Term.abs "y" (Term.var "y")) (Term.var "x"))) = true :=
  ⟨fun _ _ _ => rfl, rfl, rfl⟩

end Simple
